import Mathlib

/-!
A shallow embedding of `src/MediaController.py` (the `MediaController` class)
and proofs about its behaviour.

Modelling conventions:
* A remote MPRIS endpoint is a `Player` record.  Remote behaviour that the
  Python code observes through D-Bus (property reads, method calls raising
  `DBusException`) is part of the record: an `Option` field is `none` when the
  corresponding property read raises, and a `Bool` field `xOk` is `true` when
  the corresponding remote method call succeeds (raises no exception).
* The D-Bus session (`list_names`) and the HTTP client are bundled in a
  `World`; operations take the world explicitly.
* The controller's instance state (`self.mpris_players`,
  `self._previously_playing`, `self._last_active_player`, and the
  `functools.lru_cache` on `get_web_thumnail`) is a `CState` record, threaded
  explicitly through the operations.
* Python `None`-able values are `Option`; Python exceptions that can escape a
  function are `Except PyError`; operations also report, as a list of strings,
  which bus names received a remote `Pause`/`Play` call and which URLs were
  downloaded, so that effect-based properties can be stated.
-/

namespace MediaCtl

/-- The MPRIS `Metadata` property of one endpoint, restricted to the keys the
code reads.  `title = none` models a missing `xesam:title` key (a `KeyError`),
`artist = none` a missing `xesam:artist` key (a `KeyError`), `artist = some []`
an empty artist list (an `IndexError` on `[0]`), and `artUrl` is
`metadata.get('mpris:artUrl')`, which yields `None` (no exception) when the
key is missing. -/
structure Metadata where
  title : Option String
  artist : Option (List String)
  artUrl : Option String
deriving DecidableEq, Repr

/-- One remote MPRIS endpoint as observed over the bus.
`identity = none` models `Get('org.mpris.MediaPlayer2', 'Identity')` raising a
`DBusException`; `playbackStatus = none` models `Get(..., 'PlaybackStatus')`
raising; `metadata = none` models `Get(..., 'Metadata')` raising.  The `Ok`
flags are `true` exactly when the corresponding remote method call
(`Pause()`, `Play()`, `Stop()`, `Next()`, `Previous()`) does not raise. -/
structure Player where
  bus_name : String
  identity : Option String
  playbackStatus : Option String
  metadata : Option Metadata
  pauseOk : Bool
  playOk : Bool
  stopOk : Bool
  nextOk : Bool
  previousOk : Bool
deriving DecidableEq, Repr

/-- An HTTP response as far as `download_file` observes it:
`contentType = none` models a response without a `content-type` header
(`response.headers["content-type"]` raises `KeyError`). -/
structure HttpResponse where
  contentType : Option String
deriving DecidableEq, Repr

/-- The external world one operation runs against: whether the D-Bus session
is reachable (`list_names` succeeds), the players currently on the bus, the
HTTP client (`none` models `requests.get` raising a `RequestException`), and
the host-provided `gl.DATA_PATH`. -/
structure World where
  busOk : Bool
  players : List Player
  http : String → Option HttpResponse
  dataPath : String

/-- The mutable instance state of a `MediaController`:
`mpris_players` is the registry cache written by `update_players`;
`previously_playing` is `self._previously_playing`;
`last_active_player` is `self._last_active_player`;
`thumbCache` is the `lru_cache` memoization table on `get_web_thumnail`,
most-recently-used entry first (an entry's value is the `Option String`
returned by `download_file`). -/
structure CState where
  mpris_players : List Player
  previously_playing : Finset String
  last_active_player : Option String
  thumbCache : List (String × Option String)
deriving DecidableEq

/-- Python exception classes that matter to the control flow of this module. -/
inductive PyError where
  | dbusErr
  | keyErr
  | idxErr
  | valueErr
deriving DecidableEq, Repr

instance [DecidableEq ε] [DecidableEq α] : DecidableEq (Except ε α)
  | .ok a, .ok b =>
    if h : a = b then .isTrue (by rw [h]) else .isFalse (by intro hc; cases hc; exact h rfl)
  | .ok _, .error _ => .isFalse (by intro hc; cases hc)
  | .error _, .ok _ => .isFalse (by intro hc; cases hc)
  | .error e, .error e' =>
    if h : e = e' then .isTrue (by rw [h]) else .isFalse (by intro hc; cases hc; exact h rfl)

/-- `update_players` (lines 30-39): re-enumerate the bus.  On a bus error the
method returns early, leaving `self.mpris_players` at its previous value. -/
def update_players (w : World) (s : CState) : CState :=
  if w.busOk then { s with mpris_players := w.players } else s

/-- The membership test of `get_matching_players` / `get_matching_ifaces`
(lines 100 and 117): `player_name in [None, "", Identity]`.  The `Identity`
property is read inside the `try`, so a player whose identity read raises is
skipped (never matches), even for an unscoped call. -/
def matchesFilter (player_name : Option String) (p : Player) : Bool :=
  match p.identity with
  | none => false
  | some i => player_name == none || player_name == some "" || player_name == some i

/-- `get_matching_players` (lines 107-123): refresh the registry, then filter
the cached players by `matchesFilter`.  Returns the refreshed state together
with the matching players. -/
def get_matching_players (player_name : Option String) (w : World) (s : CState) :
    CState × List Player :=
  let s' := update_players w s
  (s', s'.mpris_players.filter (matchesFilter player_name))

/-- `get_matching_ifaces` (lines 84-105): identical enumeration and filtering;
the source returns bare interface handles, the model keeps the full record. -/
def get_matching_ifaces (player_name : Option String) (w : World) (s : CState) :
    CState × List Player :=
  get_matching_players player_name w s

/-- The inner `all_equal` of `compress_list` (lines 386-396): count the
occurrences of the first element and compare with the length. -/
def all_equal [DecidableEq α] : List α → Bool
  | [] => true
  | x :: xs => decide (((x :: xs).countP fun e => decide (e = x)) = (x :: xs).length)

/-- `compress_list` (lines 382-402): `None` for an empty list, `[first]` when
all elements are equal to the first, otherwise the list unchanged. -/
def compress_list [DecidableEq α] : List α → Option (List α)
  | [] => none
  | x :: xs => if all_equal (x :: xs) then some [x] else some (x :: xs)

/-- The per-player loop of `pause` (lines 141-150), returning in order:
the `status` list (an entry is `true` iff `iface.Pause()` did not raise), the
`currently_playing` set (the status read happens before `Pause()`, so a
playing player is recorded even when its `Pause()` then raises), and the bus
names on which `Pause()` was invoked (every matched player). -/
def pauseLoop : List Player → List Bool × Finset String × List String
  | [] => ([], ∅, [])
  | p :: ps =>
    let rest := pauseLoop ps
    (p.pauseOk :: rest.1,
     (if p.playbackStatus = some "Playing" then insert p.bus_name rest.2.1 else rest.2.1),
     p.bus_name :: rest.2.2)

/-- The output of `pause` / `play` / `toggle`: the new controller state, the
compressed status list the method returns, and the bus names on which a remote
`Pause()` resp. `Play()` was invoked. -/
structure CommandOut where
  state : CState
  result : Option (List Bool)
  pauseCalls : List String
  playCalls : List String
deriving DecidableEq

/-- `pause` (lines 125-157): resolve targets, pause each, and overwrite
`self._previously_playing` with the set of players found playing — but only
when that set is non-empty. -/
def pause (player_name : Option String) (w : World) (s : CState) : CommandOut :=
  let sp := get_matching_players player_name w s
  let scan := pauseLoop sp.2
  let s' := if scan.2.1.Nonempty then { sp.1 with previously_playing := scan.2.1 } else sp.1
  { state := s', result := compress_list scan.1, pauseCalls := scan.2.2, playCalls := [] }

/-- The per-player loop of `play` (lines 175-193).  The branch on
`player_name is not None` is taken for every provided name, the empty string
included; with no name and a non-empty remembered set, only remembered bus
names get `Play()` and the others are recorded as `True` without a call. -/
def playLoop (player_name : Option String) (prev : Finset String) :
    List Player → List Bool × List String
  | [] => ([], [])
  | p :: ps =>
    let rest := playLoop player_name prev ps
    if player_name ≠ none then
      (p.playOk :: rest.1, p.bus_name :: rest.2)
    else if prev.Nonempty then
      if p.bus_name ∈ prev then (p.playOk :: rest.1, p.bus_name :: rest.2)
      else (true :: rest.1, rest.2)
    else
      (p.playOk :: rest.1, p.bus_name :: rest.2)

/-- `play` (lines 159-198): resolve targets, play them according to
`playLoop`, then unconditionally clear `self._previously_playing`. -/
def play (player_name : Option String) (w : World) (s : CState) : CommandOut :=
  let sp := get_matching_players player_name w s
  let scan := playLoop player_name sp.1.previously_playing sp.2
  { state := { sp.1 with previously_playing := ∅ },
    result := compress_list scan.1, pauseCalls := [], playCalls := scan.2 }

/-- `toggle` (lines 200-225): scan the matched players for one whose status is
`"Playing"` (first-match short circuit; the status read is through
`_get_playback_status`, which absorbs bus errors into `None`), then delegate
to `pause` or `play`. -/
def toggle (player_name : Option String) (w : World) (s : CState) : CommandOut :=
  let sp := get_matching_players player_name w s
  if sp.2.any (fun p => p.playbackStatus == some "Playing") then
    pause player_name w s
  else
    play player_name w s

/-- `stop` (lines 227-247): `Stop()` each matched player, `True` on success,
`False` on a bus exception, compressed. -/
def stop (player_name : Option String) (w : World) (s : CState) :
    CState × Option (List Bool) :=
  let sp := get_matching_ifaces player_name w s
  (sp.1, compress_list (sp.2.map (fun p => p.stopOk)))

/-- `next` (lines 249-270): `Next()` each matched player, compressed. -/
def next (player_name : Option String) (w : World) (s : CState) :
    CState × Option (List Bool) :=
  let sp := get_matching_ifaces player_name w s
  (sp.1, compress_list (sp.2.map (fun p => p.nextOk)))

/-- `previous` (lines 272-295): `Previous()` each matched player, compressed
(the extra `(KeyError, IndexError)` handler also yields `False`). -/
def previous (player_name : Option String) (w : World) (s : CState) :
    CState × Option (List Bool) :=
  let sp := get_matching_ifaces player_name w s
  (sp.1, compress_list (sp.2.map (fun p => p.previousOk)))

/-- `status` (lines 297-310): read `PlaybackStatus` per matched player,
`None` on any of the handled exceptions, compressed. -/
def status (player_name : Option String) (w : World) (s : CState) :
    CState × Option (List (Option String)) :=
  let sp := get_matching_ifaces player_name w s
  (sp.1, compress_list (sp.2.map (fun p => p.playbackStatus)))

/-- `title` (lines 312-326): `Metadata['xesam:title']` per matched player;
a metadata read error or a missing key yields `None`; compressed. -/
def title (player_name : Option String) (w : World) (s : CState) :
    CState × Option (List (Option String)) :=
  let sp := get_matching_ifaces player_name w s
  (sp.1, compress_list (sp.2.map (fun p => p.metadata.bind (fun m => m.title))))

/-- `artist` (lines 328-342): `Metadata['xesam:artist'][0]` per matched
player; a metadata read error, a missing key or an empty list yields `None`;
compressed. -/
def artist (player_name : Option String) (w : World) (s : CState) :
    CState × Option (List (Option String)) :=
  let sp := get_matching_ifaces player_name w s
  (sp.1, compress_list (sp.2.map (fun p => p.metadata.bind (fun m => m.artist.bind List.head?))))

/-- `get_active_player_name` (lines 68-82): refresh, then scan for the first
player whose status reads `"Playing"` and whose identity read succeeds (a
`DBusException` on either read skips the player); that identity is stored in
`self._last_active_player` and returned; otherwise the stored marker is
returned unchanged. -/
def get_active_player_name (w : World) (s : CState) : CState × Option String :=
  let s' := update_players w s
  match s'.mpris_players.find?
      (fun p => p.playbackStatus == some "Playing" && p.identity.isSome) with
  | some p => ({ s' with last_active_player := p.identity }, p.identity)
  | none => (s', s'.last_active_player)

/-- The loop of `get_player_names` (lines 55-66).  The `try` wraps the whole
loop, so the first player whose identity read raises aborts the loop and the
names collected so far are returned.  With `remove_duplicates`, a name already
collected is skipped. -/
def namesLoop (remove_duplicates : Bool) (names : List String) :
    List Player → List String
  | [] => names
  | p :: ps =>
    match p.identity with
    | none => names
    | some n =>
      if remove_duplicates && names.contains n then
        namesLoop remove_duplicates names ps
      else
        namesLoop remove_duplicates (names ++ [n]) ps

/-- `get_player_names` (lines 54-66): reads the cached `self.mpris_players`
without refreshing, and returns the raw name list (no `compress_list`). -/
def get_player_names (remove_duplicates : Bool) (s : CState) : List String :=
  namesLoop remove_duplicates [] s.mpris_players

/-- `needle.isPrefix-like` test on character lists, used to transliterate
Python's `str.startswith`. -/
def charsStartWith : List Char → List Char → Bool
  | [], _ => true
  | _ :: _, [] => false
  | a :: as, b :: bs => a == b && charsStartWith as bs

/-- `path.startswith(pre)`. -/
def strStarts (s pre : String) : Bool :=
  charsStartWith pre.toList s.toList

/-- Python `s.split(sep)` for a non-empty separator, over character lists:
split at every non-overlapping occurrence, left to right.  The fuel argument
(instantiated with the string length, an upper bound on the steps) only makes
the recursion structural. -/
def splitChars (sep : List Char) : Nat → List Char → List Char → List (List Char)
  | _, [], acc => [acc.reverse]
  | 0, cs, acc => [acc.reverse ++ cs]
  | fuel + 1, c :: cs, acc =>
    if sep ≠ [] ∧ charsStartWith sep (c :: cs) then
      acc.reverse :: splitChars sep fuel (List.drop (sep.length - 1) cs) []
    else
      splitChars sep fuel cs (c :: acc)

/-- Python `s.split(sep)` (non-empty `sep`). -/
def strSplitOn (s sep : String) : List String :=
  (splitChars sep.toList s.toList.length s.toList []).map String.mk

/-- Python `sep.join(parts)`. -/
def joinWith (sep : String) : List String → String
  | [] => ""
  | [x] => x
  | x :: y :: rest => x ++ sep ++ joinWith sep (y :: rest)

/-- Python `s.replace(old, new)` for a non-empty `old` (the only call in the
source has `old = "file://"`), over character lists, fuel-structured as in
`splitChars`. -/
def replaceChars (old new : List Char) : Nat → List Char → List Char
  | _, [] => []
  | 0, cs => cs
  | fuel + 1, c :: cs =>
    if old ≠ [] ∧ charsStartWith old (c :: cs) then
      new ++ replaceChars old new fuel (List.drop (old.length - 1) cs)
    else
      c :: replaceChars old new fuel cs

/-- Python `s.replace(old, new)` (non-empty `old`). -/
def strReplace (s old new : String) : String :=
  String.mk (replaceChars old.toList new.toList s.toList.length s.toList)

/-- `urlparse(url).path` transliterated for the URL shapes this code feeds it
(`scheme://netloc/path?query#fragment`): the fragment and query are cut off,
then everything from the first `/` after `scheme://netloc`; a URL without
`://` is taken as a bare path. -/
def urlPath (url : String) : String :=
  let noFrag := (strSplitOn url "#").headD ""
  let noQuery := (strSplitOn noFrag "?").headD ""
  match strSplitOn noQuery "://" with
  | [] => noQuery
  | [_] => noQuery
  | _ :: rest =>
    let after := joinWith "://" rest
    String.mk (after.toList.dropWhile (fun ch => ch != '/'))

/-- `os.path.basename`: everything after the last `/`. -/
def basename (p : String) : String :=
  (strSplitOn p "/").getLastD p

/-- `get_file_name_from_url` (lines 410-423). -/
def get_file_name_from_url (url : String) : String :=
  basename (urlPath url)

/-- The largest index of a `'.'` in the list, if any. -/
def lastDotIdx (cs : List Char) : Option Nat :=
  ((List.range cs.length).filter (fun i => cs.getD i ' ' == '.')).getLast?

/-- `os.path.splitext(name)[0]` for a bare file name (no `/`): cut at the last
dot, except that a dot preceded only by dots carries no extension. -/
def splitextStem (name : String) : String :=
  let cs := name.toList
  match lastDotIdx cs with
  | none => name
  | some d =>
    if (List.range d).any (fun j => cs.getD j ' ' != '.') then
      String.mk (cs.take d)
    else name

/-- `download_file` (lines 425-458).  A `RequestException` from
`requests.get` is caught and yields `None`; a missing `content-type` header
raises `KeyError`; the two-element unpack of `content-type.split("/")` raises
`ValueError` unless the header splits in exactly two; otherwise the saved
file's path (directory, stem of the URL's file name, extension from the
header) is returned.  The filesystem writes themselves are not modelled. -/
def download_file (http : String → Option HttpResponse) (url : String) (path : String) :
    Except PyError (Option String) :=
  match http url with
  | none => .ok none
  | some resp =>
    let stem := splitextStem (get_file_name_from_url url)
    match resp.contentType with
    | none => .error .keyErr
    | some ct =>
      match strSplitOn ct "/" with
      | [_, extension] => .ok (some (path ++ "/" ++ stem ++ "." ++ extension))
      | _ => .error .valueErr

/-- The default `maxsize` of a bare `@lru_cache` decorator. -/
def LRU_MAXSIZE : Nat := 128

/-- An `lru_cache` hit moves the entry to the most-recently-used slot. -/
def cacheTouch (url : String) (c : List (String × Option String)) :
    List (String × Option String) :=
  match c.lookup url with
  | some v => (url, v) :: c.filter (fun e => !(e.1 == url))
  | none => c

/-- An `lru_cache` miss inserts the computed entry and evicts the
least-recently-used entry beyond the capacity. -/
def cacheInsert (url : String) (v : Option String) (c : List (String × Option String)) :
    List (String × Option String) :=
  ((url, v) :: c).take LRU_MAXSIZE

/-- `os.path.join(gl.DATA_PATH, "com_core447_MediaPlugin", "cache")` of
line 406. -/
def pluginCacheDir (dataPath : String) : String :=
  dataPath ++ "/" ++ "com_core447_MediaPlugin" ++ "/" ++ "cache"

/-- `get_web_thumnail` (lines 404-408) together with its `@lru_cache`
decorator: a cache hit returns the memoized value (touching the entry) with no
download; a miss calls `download_file` into the plugin cache directory — the
result (successful or `None`) is memoized, while a raising call is not
memoized by `lru_cache`.  The third component lists the URLs for which
`requests.get` was invoked. -/
def get_web_thumnail (dataPath : String) (http : String → Option HttpResponse)
    (url : String) (c : List (String × Option String)) :
    Except PyError (Option String) × List (String × Option String) × List String :=
  match c.lookup url with
  | some v => (.ok v, cacheTouch url c, [])
  | none =>
    match download_file http url (pluginCacheDir dataPath) with
    | .error e => (.error e, c, [url])
    | .ok v => (.ok v, cacheInsert url v c, [url])

/-- What one slot of the `thumbnail` result list holds when it is not `None`:
an in-memory buffer `io.BytesIO(base64.b64decode(data))` — represented by the
raw base64 text, the decode itself being opaque to every property proved here
(its own error behaviour on undecodable payloads is not modelled) — or a local
file path string. -/
inductive ThumbVal where
  | buffer (payload : String)
  | localPath (p : String)
deriving DecidableEq, Repr

/-- Lines 367-373 of `thumbnail`: the `https` download step and the
`file://` stripping, applied to a `path` that survived the `data:` branch. -/
def resolveArtPath (dataPath : String) (http : String → Option HttpResponse)
    (path : String) (c : List (String × Option String)) :
    Except PyError (Option ThumbVal) × List (String × Option String) × List String :=
  if strStarts path "https" then
    match get_web_thumnail dataPath http path c with
    | (.error e, c', d) => (.error e, c', d)
    | (.ok none, c', d) => (.ok none, c', d)
    | (.ok (some p2), c', d) =>
      if p2 = "" then (.ok none, c', d)
      else (.ok (some (.localPath (strReplace p2 "file://" ""))), c', d)
  else
    if path = "" then (.ok none, c, [])
    else (.ok (some (.localPath (strReplace path "file://" ""))), c, [])

/-- Lines 352-373 of `thumbnail`: classify one endpoint's `mpris:artUrl`.
A missing or empty reference yields `None`.  A `data:` reference is split at
its first comma — `header, data = path.split(',', 1)` raises `ValueError`
when there is no comma; `header.split(';')[1]` raises `IndexError` when the
header has no `;`; a `base64` encoding yields the in-memory buffer, any other
encoding falls through to the path handling with the original string. -/
def processArtUrl (dataPath : String) (http : String → Option HttpResponse)
    (art_url : Option String) (c : List (String × Option String)) :
    Except PyError (Option ThumbVal) × List (String × Option String) × List String :=
  match art_url with
  | none => (.ok none, c, [])
  | some path =>
    if path = "" then (.ok none, c, [])
    else if strStarts path "data:" then
      match strSplitOn path "," with
      | [] => (.error .valueErr, c, [])
      | [_] => (.error .valueErr, c, [])
      | header :: rest =>
        let dataPart := joinWith "," rest
        match strSplitOn header ";" with
        | [] => (.error .idxErr, c, [])
        | [_] => (.error .idxErr, c, [])
        | _ :: encoding :: _ =>
          if encoding = "base64" then (.ok (some (.buffer dataPart)), c, [])
          else resolveArtPath dataPath http path c
    else resolveArtPath dataPath http path c

/-- The per-player loop of `thumbnail` (lines 347-378), threading the download
cache and collecting the downloaded URLs.  A metadata read error, a `KeyError`
or an `IndexError` is caught and that slot becomes `None`; a `ValueError`
(malformed `data:` reference, malformed `content-type` header) is not in any
handler and aborts the whole loop. -/
def thumbnailLoop (dataPath : String) (http : String → Option HttpResponse) :
    List Player → List (String × Option String) →
    Except PyError (List (Option ThumbVal)) × List (String × Option String) × List String
  | [], c => (.ok [], c, [])
  | p :: ps, c =>
    match p.metadata with
    | none =>
      let rest := thumbnailLoop dataPath http ps c
      (rest.1.map (fun l => none :: l), rest.2.1, rest.2.2)
    | some m =>
      match processArtUrl dataPath http m.artUrl c with
      | (.ok v, c', d) =>
        let rest := thumbnailLoop dataPath http ps c'
        (rest.1.map (fun l => v :: l), rest.2.1, d ++ rest.2.2)
      | (.error .valueErr, c', d) => (.error .valueErr, c', d)
      | (.error _, c', d) =>
        let rest := thumbnailLoop dataPath http ps c'
        (rest.1.map (fun l => none :: l), rest.2.1, d ++ rest.2.2)

/-- `thumbnail` (lines 344-380): resolve targets, classify each artwork
reference, and return the compressed list — unless an unhandled `ValueError`
escapes, which the `Except` result records.  The returned state carries the
registry refresh and every cache update made before a possible abort. -/
def thumbnail (player_name : Option String) (w : World) (s : CState) :
    CState × Except PyError (Option (List (Option ThumbVal))) × List String :=
  let sp := get_matching_ifaces player_name w s
  let r := thumbnailLoop w.dataPath w.http sp.2 sp.1.thumbCache
  ({ sp.1 with thumbCache := r.2.1 }, r.1.map compress_list, r.2.2)

/-- A sequence of `get_web_thumnail` resolutions against one controller
instance: returns the final cache and the concatenated download log. -/
def webThumbRuns (dataPath : String) (http : String → Option HttpResponse) :
    List String → List (String × Option String) →
    List (String × Option String) × List String
  | [], c => (c, [])
  | u :: us, c =>
    let r := get_web_thumnail dataPath http u c
    let rest := webThumbRuns dataPath http us r.2.1
    (rest.1, r.2.2 ++ rest.2)

/-- One invocation of a public operation, carrying its filter argument and the
world it runs against. -/
inductive Op where
  | opPause (f : Option String) (w : World)
  | opPlay (f : Option String) (w : World)
  | opToggle (f : Option String) (w : World)
  | opStop (f : Option String) (w : World)
  | opNext (f : Option String) (w : World)
  | opPrevious (f : Option String) (w : World)
  | opStatus (f : Option String) (w : World)
  | opTitle (f : Option String) (w : World)
  | opArtist (f : Option String) (w : World)
  | opThumbnail (f : Option String) (w : World)
  | opActiveName (w : World)
  | opPlayerNames (dedup : Bool)

/-- The state transition of one public operation (`get_player_names` mutates
nothing). -/
def step (o : Op) (s : CState) : CState :=
  match o with
  | .opPause f w => (pause f w s).state
  | .opPlay f w => (play f w s).state
  | .opToggle f w => (toggle f w s).state
  | .opStop f w => (stop f w s).1
  | .opNext f w => (next f w s).1
  | .opPrevious f w => (previous f w s).1
  | .opStatus f w => (status f w s).1
  | .opTitle f w => (title f w s).1
  | .opArtist f w => (artist f w s).1
  | .opThumbnail f w => (thumbnail f w s).1
  | .opActiveName w => (get_active_player_name w s).1
  | .opPlayerNames _ => s

/-- Run a sequence of public operations from a state. -/
def run (ops : List Op) (s : CState) : CState :=
  ops.foldl (fun t o => step o t) s

/-- An operation, run at state `s`, that is a pause which found at least one
resolved target with status `"Playing"` (a `toggle` that found one delegates
to `pause`, so it counts). -/
def pauseArming (o : Op) (s : CState) : Prop :=
  match o with
  | .opPause f w => ∃ p ∈ (get_matching_players f w s).2, p.playbackStatus = some "Playing"
  | .opToggle f w => ∃ p ∈ (get_matching_players f w s).2, p.playbackStatus = some "Playing"
  | _ => False

/-- An operation, run at state `s`, that executes `play` (a direct `play`
call, or a `toggle` that found no playing target and delegates to `play`). -/
def playClearing (o : Op) (s : CState) : Prop :=
  match o with
  | .opPlay _ _ => True
  | .opToggle f w => ∀ p ∈ (get_matching_players f w s).2, p.playbackStatus ≠ some "Playing"
  | _ => False

/-! ## Helper lemmas -/

theorem update_players_previously_playing (w : World) (s : CState) :
    (update_players w s).previously_playing = s.previously_playing := by
  unfold update_players
  by_cases h : w.busOk <;> simp [h]

theorem all_equal_iff {α : Type} [DecidableEq α] (x : α) (xs : List α) :
    all_equal (x :: xs) = true ↔ ∀ y ∈ x :: xs, y = x := by
  simp [all_equal, List.countP_eq_length]

theorem pauseLoop_set_nonempty (ps : List Player) :
    (pauseLoop ps).2.1.Nonempty ↔ ∃ p ∈ ps, p.playbackStatus = some "Playing" := by
  induction ps with
  | nil => simp [pauseLoop]
  | cons p ps ih =>
    by_cases h : p.playbackStatus = some "Playing"
    · simp only [pauseLoop, h, if_pos]
      constructor
      · intro _; exact ⟨p, List.mem_cons_self p ps, h⟩
      · intro _; exact Finset.insert_nonempty _ _
    · simp only [pauseLoop, h, if_neg, ite_false]
      rw [ih]
      constructor
      · rintro ⟨q, hq, hs⟩; exact ⟨q, List.mem_cons_of_mem _ hq, hs⟩
      · rintro ⟨q, hq, hs⟩
        rcases List.mem_cons.mp hq with rfl | hq'
        · exact absurd hs h
        · exact ⟨q, hq', hs⟩

theorem pause_resume_unchanged (f : Option String) (w : World) (s : CState)
    (h : ∀ p ∈ (get_matching_players f w s).2, p.playbackStatus ≠ some "Playing") :
    (pause f w s).state.previously_playing = s.previously_playing := by
  unfold pause
  have hne : ¬ (pauseLoop (get_matching_players f w s).2).2.1.Nonempty := by
    rw [pauseLoop_set_nonempty]
    rintro ⟨p, hp, hs⟩
    exact h p hp hs
  simp only [if_neg hne]
  exact update_players_previously_playing w s

theorem toggle_eq_pause_of (f : Option String) (w : World) (s : CState)
    (h : ∃ p ∈ (get_matching_players f w s).2, p.playbackStatus = some "Playing") :
    toggle f w s = pause f w s := by
  unfold toggle
  have ha : (get_matching_players f w s).2.any
      (fun p => p.playbackStatus == some "Playing") = true := by
    rw [List.any_eq_true]
    rcases h with ⟨p, hp, hs⟩
    exact ⟨p, hp, by simp [hs]⟩
  simp only [ha, if_pos]

theorem toggle_eq_play_of (f : Option String) (w : World) (s : CState)
    (h : ∀ p ∈ (get_matching_players f w s).2, p.playbackStatus ≠ some "Playing") :
    toggle f w s = play f w s := by
  unfold toggle
  have hna : ¬ (get_matching_players f w s).2.any
      (fun p => p.playbackStatus == some "Playing") = true := by
    rw [List.any_eq_true]
    rintro ⟨p, hp, hs⟩
    exact h p hp (by simpa using hs)
  rw [if_neg hna]

/-! ## Concrete scenarios used by closed theorems -/

/-- Endpoint `A`: status `"Playing"`, all remote calls succeed. -/
def endpointA : Player :=
  { bus_name := "A"
    identity := some "PlayerA"
    playbackStatus := some "Playing"
    metadata := none
    pauseOk := true
    playOk := true
    stopOk := true
    nextOk := true
    previousOk := true }

/-- Endpoint `B`: status `"Paused"`. -/
def endpointB : Player :=
  { endpointA with
    bus_name := "B"
    identity := some "PlayerB"
    playbackStatus := some "Paused" }

/-- Endpoint `C`: status `"Playing"`. -/
def endpointC : Player :=
  { endpointA with
    bus_name := "C"
    identity := some "PlayerC" }

/-- A healthy bus carrying endpoints `A` (playing), `B` (paused), `C`
(playing). -/
def roundTripWorld : World :=
  { busOk := true
    players := [endpointA, endpointB, endpointC]
    http := fun _ => none
    dataPath := "data" }

/-- A fresh controller state: empty registry cache, empty resume set, no
last-active marker, empty download cache. -/
def initState : CState :=
  { mpris_players := []
    previously_playing := ∅
    last_active_player := none
    thumbCache := [] }

/-- A bus where `A` and `B` exist but nothing is playing. -/
def pausedWorld : World :=
  { roundTripWorld with players := [{ endpointA with playbackStatus := some "Paused" }, endpointB] }

/-- A state whose resume set is armed with `{A}`. -/
def armedState : CState :=
  { initState with previously_playing := {"A"} }

/-! ## Claim theorems -/

/-- C6: `compress_list` is a pure function of its input sequence satisfying:
the empty sequence yields `none`; a non-empty sequence all of whose elements
equal the first yields the singleton of the first; any other sequence is
returned unchanged.  (Equality-based, so `none = none` counts as equal at
`α := Option β`.) -/
theorem compress_list_spec (α : Type) [DecidableEq α] :
    compress_list ([] : List α) = none ∧
    (∀ (x : α) (xs : List α), (∀ y ∈ x :: xs, y = x) → compress_list (x :: xs) = some [x]) ∧
    (∀ (x : α) (xs : List α), (∃ y ∈ x :: xs, y ≠ x) → compress_list (x :: xs) = some (x :: xs)) := by
  refine ⟨rfl, ?_, ?_⟩
  · intro x xs h
    have he : compress_list (x :: xs)
        = if all_equal (x :: xs) = true then some [x] else some (x :: xs) := rfl
    rw [he, if_pos ((all_equal_iff x xs).mpr h)]
  · intro x xs h
    have he : compress_list (x :: xs)
        = if all_equal (x :: xs) = true then some [x] else some (x :: xs) := rfl
    rcases h with ⟨y, hy, hne⟩
    have hna : ¬ all_equal (x :: xs) = true := by
      intro hall
      exact hne ((all_equal_iff x xs).mp hall y hy)
    rw [he, if_neg hna]

/-- C6 witness: the theorem applied at concrete inputs (`Option Bool`
elements, so that `none`-valued slots are covered). -/
theorem compress_list_spec_witness :
    compress_list ([] : List (Option Bool)) = none ∧
    compress_list [some true, some true, some true] = some [some true] ∧
    compress_list [(none : Option Bool), some false] = some [none, some false] := by
  obtain ⟨h1, h2, h3⟩ := compress_list_spec (Option Bool)
  exact ⟨h1, h2 (some true) [some true, some true] (by decide),
    h3 none [some false] (by decide)⟩

/-- C1: on a bus with `A` playing, `B` paused, `C` playing, `pause(None)`
arms the resume set with exactly `{A, C}` and invokes `Pause()` on all three;
the next `play(None)` invokes `Play()` on exactly `A` and `C` (not `B`) and
empties the resume set, so a further `play(None)` invokes `Play()` on all
three. -/
theorem pause_play_round_trip :
    (pause none roundTripWorld initState).state.previously_playing = {"A", "C"} ∧
    (pause none roundTripWorld initState).pauseCalls = ["A", "B", "C"] ∧
    (play none roundTripWorld (pause none roundTripWorld initState).state).playCalls
      = ["A", "C"] ∧
    (play none roundTripWorld
        (pause none roundTripWorld initState).state).state.previously_playing = ∅ ∧
    (play none roundTripWorld
        (play none roundTripWorld (pause none roundTripWorld initState).state).state).playCalls
      = ["A", "B", "C"] := by
  decide

/-- C4: a `pause` call none of whose resolved targets has status `"Playing"`
leaves the resume set exactly as it was (so a second consecutive `pause` does
not erase what the first armed). -/
theorem pause_preserves_resume_set (f : Option String) (w : World) (s : CState)
    (h : ∀ p ∈ (get_matching_players f w s).2, p.playbackStatus ≠ some "Playing") :
    (pause f w s).state.previously_playing = s.previously_playing :=
  pause_resume_unchanged f w s h

/-- C4 witness: pausing `pausedWorld` (nothing playing) from the state armed
with `{A}` keeps the set `{A}`. -/
theorem pause_preserves_resume_set_witness :
    (pause none pausedWorld armedState).state.previously_playing
      = armedState.previously_playing :=
  pause_preserves_resume_set none pausedWorld armedState (by decide)

/-- C5: `toggle(filter)` equals `pause(filter)` — result, state and remote
calls — whenever some resolved target reports status `"Playing"` (the scan
stops at the first match), and equals `play(filter)` when none does. -/
theorem toggle_equiv (f : Option String) (w : World) (s : CState) :
    ((∃ p ∈ (get_matching_players f w s).2, p.playbackStatus = some "Playing") →
        toggle f w s = pause f w s) ∧
    ((∀ p ∈ (get_matching_players f w s).2, p.playbackStatus ≠ some "Playing") →
        toggle f w s = play f w s) :=
  ⟨fun h => toggle_eq_pause_of f w s h, fun h => toggle_eq_play_of f w s h⟩

/-- C5 witness: the theorem applied on a playing bus (toggle = pause) and on
a fully paused bus (toggle = play). -/
theorem toggle_equiv_witness :
    toggle none roundTripWorld initState = pause none roundTripWorld initState ∧
    toggle none pausedWorld armedState = play none pausedWorld armedState := by
  constructor
  · exact (toggle_equiv none roundTripWorld initState).1 (by decide)
  · exact (toggle_equiv none pausedWorld armedState).2 (by decide)

theorem playLoop_provided (f : Option String) (hf : f ≠ none) (prev : Finset String)
    (ps : List Player) :
    playLoop f prev ps = (ps.map Player.playOk, ps.map Player.bus_name) := by
  induction ps with
  | nil => rfl
  | cons p ps ih => simp [playLoop, hf, ih]

theorem playLoop_unscoped_armed (prev : Finset String) (hprev : prev.Nonempty)
    (ps : List Player) :
    playLoop none prev ps
      = (ps.map (fun p => if p.bus_name ∈ prev then p.playOk else true),
         (ps.filter (fun p => decide (p.bus_name ∈ prev))).map Player.bus_name) := by
  induction ps with
  | nil => rfl
  | cons p ps ih =>
    by_cases hm : p.bus_name ∈ prev <;> simp [playLoop, hprev, hm, ih]

theorem playLoop_unscoped_idle (ps : List Player) :
    playLoop none (∅ : Finset String) ps = (ps.map Player.playOk, ps.map Player.bus_name) := by
  induction ps with
  | nil => rfl
  | cons p ps ih => simp [playLoop, ih]

/-- C2 counterexample: with the empty-string filter (`filter` empty but not
absent) and the resume set armed with `{"A"}`, the code invokes `Play()` on
all three endpoints — `"B"` and `"C"` included, though they are not in the
Resume Set — because the source branches on `player_name is not None`, for
which the empty string counts as a provided name. -/
theorem play_empty_filter_counterexample :
    armedState.previously_playing = {"A"} ∧
    (play (some "") roundTripWorld armedState).playCalls = ["A", "B", "C"] ∧
    "B" ∉ armedState.previously_playing := by
  decide

/-- C2 (amended): the specific-name branch of `play` is taken whenever
`filter` is provided (`is not None`), the empty string included, and then
every matching endpoint receives `Play()`; with `filter` absent and the
Resume Set non-empty, only members receive `Play()` and the skipped
endpoints are still recorded as `True`; with `filter` absent and the Resume
Set empty, every matching endpoint receives `Play()`; in all branches the
Resume Set is empty afterwards. -/
theorem play_postcondition (f : Option String) (w : World) (s : CState) :
    (f ≠ none →
      (play f w s).playCalls = (get_matching_players f w s).2.map Player.bus_name ∧
      (play f w s).result = compress_list ((get_matching_players f w s).2.map Player.playOk)) ∧
    (f = none → s.previously_playing.Nonempty →
      (play f w s).playCalls = ((get_matching_players f w s).2.filter
          (fun p => decide (p.bus_name ∈ s.previously_playing))).map Player.bus_name ∧
      (play f w s).result = compress_list ((get_matching_players f w s).2.map
          (fun p => if p.bus_name ∈ s.previously_playing then p.playOk else true))) ∧
    (f = none → s.previously_playing = ∅ →
      (play f w s).playCalls = (get_matching_players f w s).2.map Player.bus_name ∧
      (play f w s).result = compress_list ((get_matching_players f w s).2.map Player.playOk)) ∧
    (play f w s).state.previously_playing = ∅ := by
  have hprev : (get_matching_players f w s).1.previously_playing = s.previously_playing :=
    update_players_previously_playing w s
  refine ⟨?_, ?_, ?_, rfl⟩
  · intro hf
    simp only [play, hprev, playLoop_provided f hf]
    exact ⟨trivial, trivial⟩
  · intro hf hne
    subst hf
    simp only [play, hprev, playLoop_unscoped_armed s.previously_playing hne]
    exact ⟨trivial, trivial⟩
  · intro hf hemp
    subst hf
    simp only [play, hprev, hemp, playLoop_unscoped_idle]
    exact ⟨trivial, trivial⟩

/-- C2 witness: the amended theorem applied with a provided name, with an
absent filter and an armed set, and with an absent filter and an idle set. -/
theorem play_postcondition_witness :
    ((play (some "PlayerB") roundTripWorld armedState).playCalls = ["B"] ∧
      (play (some "PlayerB") roundTripWorld armedState).result = some [true]) ∧
    ((play none roundTripWorld armedState).playCalls = ["A"] ∧
      (play none roundTripWorld armedState).state.previously_playing = ∅) ∧
    (play none roundTripWorld initState).playCalls = ["A", "B", "C"] := by
  refine ⟨?_, ?_, ?_⟩
  · have h := (play_postcondition (some "PlayerB") roundTripWorld armedState).1
      (by decide)
    rcases h with ⟨h1, h2⟩
    constructor
    · rw [h1]; decide
    · rw [h2]; decide
  · constructor
    · have h := ((play_postcondition none roundTripWorld armedState).2.1
        rfl (by decide)).1
      rw [h]; decide
    · exact (play_postcondition none roundTripWorld armedState).2.2.2
  · have h := ((play_postcondition none roundTripWorld initState).2.2.1
      rfl (by decide)).1
    rw [h]; decide

/-! ## The reachable-state invariant of the resume set (C3) -/

/-- The operations whose code reads or writes `self._previously_playing`. -/
def touchesResume (o : Op) : Prop :=
  match o with
  | .opPause _ _ => True
  | .opPlay _ _ => True
  | .opToggle _ _ => True
  | _ => False

theorem run_append (a b : List Op) (s : CState) : run (a ++ b) s = run b (run a s) :=
  List.foldl_append _ s a b

theorem run_snoc (a : List Op) (o : Op) (s : CState) :
    run (a ++ [o]) s = step o (run a s) := by
  rw [run_append]; rfl

theorem play_state_resume (f : Option String) (w : World) (s : CState) :
    (play f w s).state.previously_playing = ∅ := rfl

theorem get_active_player_name_resume (w : World) (s : CState) :
    (get_active_player_name w s).1.previously_playing = s.previously_playing := by
  unfold get_active_player_name
  cases hf : (update_players w s).mpris_players.find?
      (fun p => p.playbackStatus == some "Playing" && p.identity.isSome) with
  | none => simp [hf, update_players_previously_playing]
  | some p => simp [hf, update_players_previously_playing]

theorem step_preserves_resume (o : Op) (s : CState) (h : ¬ touchesResume o) :
    (step o s).previously_playing = s.previously_playing := by
  cases o with
  | opPause f w => exact absurd trivial h
  | opPlay f w => exact absurd trivial h
  | opToggle f w => exact absurd trivial h
  | opStop f w => exact update_players_previously_playing w s
  | opNext f w => exact update_players_previously_playing w s
  | opPrevious f w => exact update_players_previously_playing w s
  | opStatus f w => exact update_players_previously_playing w s
  | opTitle f w => exact update_players_previously_playing w s
  | opArtist f w => exact update_players_previously_playing w s
  | opThumbnail f w => exact update_players_previously_playing w s
  | opActiveName w => exact get_active_player_name_resume w s
  | opPlayerNames d => rfl

theorem snoc_split {α : Type} :
    ∀ (p l q : List α) (a x : α), l ++ [a] = p ++ x :: q →
      (p = l ∧ x = a ∧ q = []) ∨ ∃ q', q = q' ++ [a] ∧ l = p ++ x :: q'
  | [], l, q, a, x => by
    intro h
    cases l with
    | nil =>
      simp only [List.nil_append, List.cons.injEq] at h
      exact Or.inl ⟨rfl, h.1.symm, h.2.symm⟩
    | cons b l' =>
      simp only [List.cons_append, List.nil_append, List.cons.injEq] at h
      exact Or.inr ⟨l', h.2.symm, by rw [List.nil_append, h.1]⟩
  | c :: p', l, q, a, x => by
    intro h
    cases l with
    | nil =>
      exfalso
      simp only [List.nil_append, List.cons_append, List.cons.injEq] at h
      rcases h with ⟨_, h2⟩
      cases p' <;> simp at h2
    | cons b l' =>
      simp only [List.cons_append, List.cons.injEq] at h
      rcases snoc_split p' l' q a x h.2 with ⟨hp, hx, hq⟩ | ⟨q', hq, hl⟩
      · exact Or.inl ⟨by rw [h.1, hp], hx, hq⟩
      · exact Or.inr ⟨q', hq, by rw [h.1, hl]; rfl⟩

theorem decomp_last {ops : List Op} {o : Op} {s0 : CState}
    (harm : pauseArming o (run ops s0)) :
    ∃ pre o' post, ops ++ [o] = pre ++ o' :: post ∧ pauseArming o' (run pre s0) ∧
      ∀ post1 o2 post2, post = post1 ++ o2 :: post2 →
        ¬ playClearing o2 (run (pre ++ o' :: post1) s0) := by
  refine ⟨ops, o, [], rfl, harm, ?_⟩
  intro post1 o2 post2 hsplit
  cases post1 <;> simp at hsplit

theorem decomp_extend {ops : List Op} {o : Op} {s0 : CState}
    (hnc : ∀ t, ¬ playClearing o t)
    (h : ∃ pre o' post, ops = pre ++ o' :: post ∧ pauseArming o' (run pre s0) ∧
        ∀ post1 o2 post2, post = post1 ++ o2 :: post2 →
          ¬ playClearing o2 (run (pre ++ o' :: post1) s0)) :
    ∃ pre o' post, ops ++ [o] = pre ++ o' :: post ∧ pauseArming o' (run pre s0) ∧
      ∀ post1 o2 post2, post = post1 ++ o2 :: post2 →
        ¬ playClearing o2 (run (pre ++ o' :: post1) s0) := by
  rcases h with ⟨pre, o', post, heq, harm, hpost⟩
  refine ⟨pre, o', post ++ [o], by rw [heq]; simp, harm, ?_⟩
  intro post1 o2 post2 hsplit
  rcases snoc_split post1 post post2 o o2 hsplit with ⟨_, hx, _⟩ | ⟨q', _, hpost'⟩
  · subst hx; exact hnc _
  · exact hpost post1 o2 q' hpost'

/-- C3: starting from an empty resume set, whenever a sequence of public
operations leaves the resume set non-empty, the sequence contains a pause
call (possibly a `toggle` that delegated to `pause`) which, at the state it
ran in, found a resolved target with status `"Playing"`, and no `play` call
(nor a `toggle` that delegated to `play`) ran after it; moreover no public
operation other than `pause`/`play`/`toggle` ever changes the resume set. -/
theorem resume_set_invariant :
    (∀ (ops : List Op) (s0 : CState), s0.previously_playing = ∅ →
        (run ops s0).previously_playing ≠ ∅ →
        ∃ pre o post, ops = pre ++ o :: post ∧ pauseArming o (run pre s0) ∧
          ∀ post1 o2 post2, post = post1 ++ o2 :: post2 →
            ¬ playClearing o2 (run (pre ++ o :: post1) s0)) ∧
    (∀ (o : Op) (s : CState), ¬ touchesResume o →
        (step o s).previously_playing = s.previously_playing) := by
  constructor
  · intro ops
    induction ops using List.reverseRecOn with
    | nil =>
      intro s0 h0 hne
      exact absurd h0 hne
    | append_singleton ops o ih =>
      intro s0 h0 hne
      rw [run_snoc] at hne
      cases o with
      | opPlay f w =>
        exact absurd (play_state_resume f w (run ops s0)) hne
      | opToggle f w =>
        by_cases hx : ∃ p ∈ (get_matching_players f w (run ops s0)).2,
            p.playbackStatus = some "Playing"
        · exact decomp_last hx
        · push_neg at hx
          have hst : step (Op.opToggle f w) (run ops s0) = (play f w (run ops s0)).state :=
            congrArg CommandOut.state (toggle_eq_play_of f w (run ops s0) hx)
          rw [hst] at hne
          exact absurd (play_state_resume f w (run ops s0)) hne
      | opPause f w =>
        by_cases hx : ∃ p ∈ (get_matching_players f w (run ops s0)).2,
            p.playbackStatus = some "Playing"
        · exact decomp_last hx
        · push_neg at hx
          rw [show (step (Op.opPause f w) (run ops s0)).previously_playing
              = (run ops s0).previously_playing from
            pause_resume_unchanged f w (run ops s0) hx] at hne
          exact decomp_extend (fun t ht => ht) (ih s0 h0 hne)
      | opStop f w =>
        rw [step_preserves_resume (Op.opStop f w) _ (fun hc => hc)] at hne
        exact decomp_extend (fun t ht => ht) (ih s0 h0 hne)
      | opNext f w =>
        rw [step_preserves_resume (Op.opNext f w) _ (fun hc => hc)] at hne
        exact decomp_extend (fun t ht => ht) (ih s0 h0 hne)
      | opPrevious f w =>
        rw [step_preserves_resume (Op.opPrevious f w) _ (fun hc => hc)] at hne
        exact decomp_extend (fun t ht => ht) (ih s0 h0 hne)
      | opStatus f w =>
        rw [step_preserves_resume (Op.opStatus f w) _ (fun hc => hc)] at hne
        exact decomp_extend (fun t ht => ht) (ih s0 h0 hne)
      | opTitle f w =>
        rw [step_preserves_resume (Op.opTitle f w) _ (fun hc => hc)] at hne
        exact decomp_extend (fun t ht => ht) (ih s0 h0 hne)
      | opArtist f w =>
        rw [step_preserves_resume (Op.opArtist f w) _ (fun hc => hc)] at hne
        exact decomp_extend (fun t ht => ht) (ih s0 h0 hne)
      | opThumbnail f w =>
        rw [step_preserves_resume (Op.opThumbnail f w) _ (fun hc => hc)] at hne
        exact decomp_extend (fun t ht => ht) (ih s0 h0 hne)
      | opActiveName w =>
        rw [step_preserves_resume (Op.opActiveName w) _ (fun hc => hc)] at hne
        exact decomp_extend (fun t ht => ht) (ih s0 h0 hne)
      | opPlayerNames d =>
        rw [step_preserves_resume (Op.opPlayerNames d) _ (fun hc => hc)] at hne
        exact decomp_extend (fun t ht => ht) (ih s0 h0 hne)
  · intro o s h
    exact step_preserves_resume o s h

/-- C3 witness: the invariant applied to the one-operation trace
`[pause(None)]` on the `A`-playing bus (its resume set ends non-empty), and
the frame part applied to a `status` call on an armed state. -/
theorem resume_set_invariant_witness :
    (∃ pre o post, [Op.opPause none roundTripWorld] = pre ++ o :: post ∧
        pauseArming o (run pre initState) ∧
        ∀ post1 o2 post2, post = post1 ++ o2 :: post2 →
          ¬ playClearing o2 (run (pre ++ o :: post1) initState)) ∧
    (step (Op.opStatus none roundTripWorld) armedState).previously_playing
      = armedState.previously_playing := by
  constructor
  · exact resume_set_invariant.1 [Op.opPause none roundTripWorld] initState rfl (by decide)
  · exact resume_set_invariant.2 (Op.opStatus none roundTripWorld) armedState (fun hc => hc)

/-! ## Thumbnail resolution: the uncaught ValueError (C7) and the plain-HTTP
pass-through (C10) -/

/-- An endpoint whose artwork reference is a `data:` URI with no comma (for
example an empty-payload reference). -/
def endpointBadArt : Player :=
  { endpointA with
    metadata := some { title := none, artist := none, artUrl := some "data:image/png;base64" } }

/-- A healthy bus carrying only `endpointBadArt`. -/
def badArtWorld : World := { roundTripWorld with players := [endpointBadArt] }

/-- C7 (exhibit of the code defect): with one endpoint whose `mpris:artUrl`
is the comma-less `data:` URI `"data:image/png;base64"`, the two-element
unpack `header, data = path.split(',', 1)` raises `ValueError`; neither the
`(KeyError, IndexError)` handler nor the `DBusException` handler of
`thumbnail` matches it, so it escapes to the caller instead of being absorbed
as a `None` slot — the neighbouring `header.split(';')[1]` `IndexError` is
caught one line below, showing the absorb-everything intent. -/
theorem thumbnail_raises_on_malformed_data_uri :
    (thumbnail none badArtWorld initState).2.1 = .error .valueErr := by
  decide

theorem strStarts_http_block (url : String) (h : strStarts url "http://" = true) :
    url ≠ "" ∧ strStarts url "data:" = false ∧ strStarts url "https" = false := by
  obtain ⟨cs⟩ := url
  have h' : charsStartWith ['h', 't', 't', 'p', ':', '/', '/'] cs = true := h
  rcases cs with _ | ⟨c0, _ | ⟨c1, _ | ⟨c2, _ | ⟨c3, _ | ⟨c4, _ | ⟨c5, _ | ⟨c6, rest⟩⟩⟩⟩⟩⟩⟩ <;>
    simp only [charsStartWith, Bool.and_eq_true, beq_iff_eq, Bool.false_eq_true,
      and_false, false_and] at h'
  obtain ⟨e0, e1, e2, e3, e4, e5, e6, -⟩ := h'
  subst e0; subst e1; subst e2; subst e3; subst e4; subst e5; subst e6
  refine ⟨?_, ?_, ?_⟩
  · intro hcon
    exact List.cons_ne_nil _ _ (congrArg String.data hcon)
  · simp [strStarts, String.toList, charsStartWith]
  · simp [strStarts, String.toList, charsStartWith]

/-- C10: an artwork reference beginning with `"http://"` (plain HTTP, not
`https`) bypasses the download and the cache entirely — the cache is returned
untouched and no URL is downloaded — and the slot receives the raw URL with
every `"file://"` substring removed, as if it were a local path. -/
theorem http_art_passthrough (dataPath : String) (http : String → Option HttpResponse)
    (url : String) (c : List (String × Option String))
    (h : strStarts url "http://" = true) :
    processArtUrl dataPath http (some url) c
      = (.ok (some (.localPath (strReplace url "file://" ""))), c, []) := by
  obtain ⟨hne, hdata, hhttps⟩ := strStarts_http_block url h
  unfold processArtUrl resolveArtPath
  simp only [hdata, hhttps, Bool.false_eq_true, if_false, if_neg hne]

/-- C10 witness: the theorem applied to `"http://x/file://y.png"` — no
download, cache untouched, and the inner `file://` substring stripped. -/
theorem http_art_passthrough_witness :
    processArtUrl "data" (fun _ => none) (some "http://x/file://y.png") []
      = (.ok (some (.localPath "http://x/y.png")), [], []) := by
  have h := http_art_passthrough "data" (fun _ => none) "http://x/file://y.png" [] (by decide)
  rw [h]
  decide

/-! ## The download cache (C8) -/

theorem lookup_filter_ne (u v : String) (huv : u ≠ v) (c : List (String × Option String)) :
    (c.filter (fun e => !(e.1 == v))).lookup u = c.lookup u := by
  induction c with
  | nil => rfl
  | cons e c ih =>
    obtain ⟨k, b⟩ := e
    by_cases hkv : k = v
    · have h2 : (u == v) = false := by simpa using huv
      simp [List.filter_cons, List.lookup_cons, hkv, h2, ih]
    · by_cases huk : u = k
      · subst huk
        simp [List.filter_cons, List.lookup_cons, hkv]
      · have h2 : (u == k) = false := by simpa using huk
        simp [List.filter_cons, List.lookup_cons, hkv, h2, ih]

theorem cacheTouch_lookup (v u : String) (c : List (String × Option String)) :
    (cacheTouch v c).lookup u = c.lookup u := by
  unfold cacheTouch
  cases hcv : c.lookup v with
  | none => rfl
  | some w =>
    by_cases huv : u = v
    · subst huv
      simp [List.lookup_cons, hcv]
    · have h2 : (u == v) = false := by simpa using huv
      simp [List.lookup_cons, h2, lookup_filter_ne u v huv c, hcv]

theorem lookup_none_not_mem (u : String) :
    ∀ (c : List (String × Option String)), c.lookup u = none → u ∉ c.map Prod.fst
  | [] => by simp
  | (k, b) :: c => by
    intro h hm
    by_cases huk : u = k
    · rw [List.lookup_cons] at h
      simp [huk] at h
    · have h2 : (u == k) = false := by simpa using huk
      simp only [List.lookup_cons, h2] at h
      rw [List.map_cons] at hm
      rcases List.mem_cons.mp hm with hk | hmem
      · exact huk hk
      · exact lookup_none_not_mem u c h hmem

theorem filter_ne_of_not_mem (v : String) (c : List (String × Option String))
    (h : v ∉ c.map Prod.fst) : c.filter (fun e => !(e.1 == v)) = c := by
  rw [List.filter_eq_self]
  intro e he
  have : e.1 ≠ v := by
    intro hev
    exact h (List.mem_map.mpr ⟨e, he, hev⟩)
  simpa using this

theorem filter_ne_length (v : String) (w : Option String) :
    ∀ (c : List (String × Option String)), (c.map Prod.fst).Nodup →
      c.lookup v = some w → (c.filter (fun e => !(e.1 == v))).length + 1 = c.length
  | [] => by
    intro _ h
    simp [List.lookup] at h
  | (k, b) :: c => by
    intro hnd h
    have hnd' : (c.map Prod.fst).Nodup := (List.nodup_cons.mp (by simpa using hnd)).2
    by_cases hkv : k = v
    · subst hkv
      have hnm : k ∉ c.map Prod.fst := (List.nodup_cons.mp (by simpa using hnd)).1
      have hflt : c.filter (fun e => !(e.1 == k)) = c := filter_ne_of_not_mem k c hnm
      simp [List.filter_cons, hflt]
    · have h2 : (v == k) = false := by simpa using fun hvk : v = k => hkv hvk.symm
      rw [List.lookup_cons, h2] at h
      have hkeep : (!(k == v)) = true := by simpa using hkv
      simp [List.filter_cons, hkeep, filter_ne_length v w c hnd' h]

theorem cacheTouch_length (v : String) (c : List (String × Option String))
    (hnd : (c.map Prod.fst).Nodup) : (cacheTouch v c).length = c.length := by
  unfold cacheTouch
  cases hcv : c.lookup v with
  | none => rfl
  | some w =>
    simp only [List.length_cons]
    exact filter_ne_length v w c hnd hcv

theorem cacheTouch_keys_nodup (v : String) (c : List (String × Option String))
    (hnd : (c.map Prod.fst).Nodup) : ((cacheTouch v c).map Prod.fst).Nodup := by
  unfold cacheTouch
  cases hcv : c.lookup v with
  | none => exact hnd
  | some w =>
    simp only [List.map_cons]
    rw [List.nodup_cons]
    constructor
    · intro hmem
      rcases List.mem_map.mp hmem with ⟨e, he, hev⟩
      have hp := (List.mem_filter.mp he).2
      rw [hev] at hp
      simp at hp
    · exact List.Nodup.sublist (List.Sublist.map _ (List.filter_sublist c)) hnd

theorem card_insert_erase {α : Type} [DecidableEq α] (a : α) (s : Finset α) :
    (insert a s).card = (s.erase a).card + 1 := by
  by_cases h : a ∈ s
  · rw [Finset.insert_eq_self.mpr h, (Finset.card_erase_add_one h)]
  · rw [Finset.card_insert_of_not_mem h, Finset.erase_eq_of_not_mem h]

theorem webThumbRuns_cons (d : String) (h : String → Option HttpResponse) (v : String)
    (rest : List String) (c : List (String × Option String)) :
    (webThumbRuns d h (v :: rest) c).2
      = (get_web_thumnail d h v c).2.2
        ++ (webThumbRuns d h rest (get_web_thumnail d h v c).2.1).2 := rfl

/-- Download accounting of a request sequence against an LRU cache whose key
set never outgrows the capacity: every URL is downloaded once if requested
and not in the cache, and never otherwise. -/
theorem webThumbRuns_count_aux (dataPath : String) (http : String → Option HttpResponse)
    (hdl : ∀ x, ∃ v, download_file http x (pluginCacheDir dataPath) = Except.ok v)
    (urls : List String) :
    ∀ (c : List (String × Option String)),
      (c.map Prod.fst).Nodup →
      c.length + (urls.toFinset.filter (fun x => c.lookup x = none)).card ≤ 128 →
      ∀ u, (webThumbRuns dataPath http urls c).2.count u
        = if u ∈ urls ∧ c.lookup u = none then 1 else 0 := by
  induction urls with
  | nil =>
    intro c _ _ u
    simp [webThumbRuns]
  | cons v rest ih =>
    intro c hnd hb u
    cases hcv : c.lookup v with
    | some w =>
      have hr : get_web_thumnail dataPath http v c = (.ok w, cacheTouch v c, []) := by
        unfold get_web_thumnail
        rw [hcv]
      have hlook : ∀ x, (cacheTouch v c).lookup x = c.lookup x :=
        fun x => cacheTouch_lookup v x c
      have hb' : (cacheTouch v c).length
          + (rest.toFinset.filter (fun x => (cacheTouch v c).lookup x = none)).card ≤ 128 := by
        rw [cacheTouch_length v c hnd,
          Finset.filter_congr (fun x _ => by rw [hlook x])]
        refine le_trans (Nat.add_le_add_left (Finset.card_le_card ?_) _) hb
        refine Finset.filter_subset_filter _ ?_
        intro x hx
        rw [List.toFinset_cons]
        exact Finset.mem_insert_of_mem hx
      have hrec := ih (cacheTouch v c) (cacheTouch_keys_nodup v c hnd) hb' u
      have hsteps : (webThumbRuns dataPath http (v :: rest) c).2
          = [] ++ (webThumbRuns dataPath http rest (cacheTouch v c)).2 := by
        rw [webThumbRuns_cons, hr]
      rw [hsteps, List.nil_append, hrec, hlook u]
      by_cases huv : u = v
      · subst huv
        simp [hcv]
      · have hiff2 : (u ∈ v :: rest ∧ List.lookup u c = none)
            ↔ (u ∈ rest ∧ List.lookup u c = none) := by
          rw [List.mem_cons]
          simp [huv]
        exact (if_congr hiff2 rfl rfl).symm
    | none =>
      obtain ⟨val, hval⟩ := hdl v
      have hvcard : v ∈ (v :: rest).toFinset.filter (fun x => c.lookup x = none) := by
        rw [Finset.mem_filter]
        exact ⟨by simp, hcv⟩
      have hclen : c.length + 1 ≤ 128 := by
        have h1 : 1 ≤ ((v :: rest).toFinset.filter (fun x => c.lookup x = none)).card :=
          Finset.card_pos.mpr ⟨v, hvcard⟩
        omega
      have hins : cacheInsert v val c = (v, val) :: c := by
        unfold cacheInsert
        exact List.take_of_length_le (by simpa [LRU_MAXSIZE] using hclen)
      have hr : get_web_thumnail dataPath http v c = (.ok val, (v, val) :: c, [v]) := by
        unfold get_web_thumnail
        simp only [hcv, hval]
        rw [hins]
      have hfresh : v ∉ c.map Prod.fst := lookup_none_not_mem v c hcv
      have hnd' : (((v, val) :: c).map Prod.fst).Nodup := by
        rw [List.map_cons]
        exact List.nodup_cons.mpr ⟨hfresh, hnd⟩
      have hlookc : ∀ x, x ≠ v → ((v, val) :: c).lookup x = c.lookup x := by
        intro x hx
        have h2 : (x == v) = false := by simpa using hx
        simp [List.lookup_cons, h2]
      have hlookv : ((v, val) :: c).lookup v = some val := by
        simp [List.lookup_cons]
      have hset : rest.toFinset.filter (fun x => ((v, val) :: c).lookup x = none)
          = (rest.toFinset.filter (fun x => c.lookup x = none)).erase v := by
        ext x
        rw [Finset.mem_filter, Finset.mem_erase, Finset.mem_filter]
        constructor
        · intro ⟨hxm, hxl⟩
          have hxv : x ≠ v := by
            intro hxv
            rw [hxv, hlookv] at hxl
            exact Option.some_ne_none val hxl
          exact ⟨hxv, hxm, by rw [← hlookc x hxv]; exact hxl⟩
        · intro ⟨hxv, hxm, hxl⟩
          exact ⟨hxm, by rw [hlookc x hxv]; exact hxl⟩
      have hb' : ((v, val) :: c).length
          + (rest.toFinset.filter (fun x => ((v, val) :: c).lookup x = none)).card ≤ 128 := by
        rw [List.length_cons, hset]
        have hold : ((v :: rest).toFinset.filter (fun x => c.lookup x = none)).card
            = ((rest.toFinset.filter (fun x => c.lookup x = none)).erase v).card + 1 := by
          rw [List.toFinset_cons, Finset.filter_insert, if_pos hcv, card_insert_erase]
        omega
      have hrec := ih ((v, val) :: c) hnd' hb' u
      have hsteps : (webThumbRuns dataPath http (v :: rest) c).2
          = [v] ++ (webThumbRuns dataPath http rest ((v, val) :: c)).2 := by
        rw [webThumbRuns_cons, hr]
      rw [hsteps, List.count_append, hrec]
      by_cases huv : u = v
      · subst huv
        rw [hlookv]
        simp [hcv]
      · rw [hlookc u huv]
        have hcnt : List.count u [v] = 0 := by
          simp [List.count_singleton, huv]
        rw [hcnt, Nat.zero_add]
        have hiff : (u ∈ v :: rest ∧ List.lookup u c = none)
            ↔ (u ∈ rest ∧ List.lookup u c = none) := by
          rw [List.mem_cons]
          simp [huv]
        exact (if_congr hiff rfl rfl).symm

/-- The HTTP client of the cache scenarios: every GET succeeds with content
type `image/png`. -/
def pngHttp : String → Option HttpResponse := fun _ => some { contentType := some "image/png" }

/-- 129 distinct URLs, then the first one again. -/
def evictionUrls : List String := (List.range 129).map (fun i => toString i) ++ ["0"]

set_option maxRecDepth 40000 in
/-- C8 counterexample: a bare `@lru_cache` is an LRU cache with
`maxsize = 128`.  After 129 distinct URLs the first has been evicted, so its
second resolution triggers a second download: URL `"0"` is requested twice
and downloaded twice, refuting both "exactly one download per distinct URL"
and "no cached entry is ever evicted". -/
theorem web_thumbnail_redownload_counterexample :
    evictionUrls.count "0" = 2 ∧
    (webThumbRuns "data" pngHttp evictionUrls []).2.count "0" = 2 := by
  decide

/-- C8 (amended): the download memoization is `functools.lru_cache` at its
default capacity of 128 with least-recently-used eviction, not an unbounded
no-eviction table.  As long as at most 128 distinct URLs are resolved (and
the downloads complete without raising), each distinct URL triggers exactly
one HTTP download across repeated calls — later resolutions hit the cache —
and resolving a cached URL performs no download and returns the memoized
value, only refreshing the entry's recency.  Beyond 128 distinct URLs the
least recently used entry is evicted and can be downloaded again. -/
theorem web_thumbnail_lru_spec (dataPath : String) (http : String → Option HttpResponse)
    (hdl : ∀ x, ∃ v, download_file http x (pluginCacheDir dataPath) = Except.ok v)
    (urls : List String) (hcard : urls.toFinset.card ≤ 128) :
    (∀ u, (webThumbRuns dataPath http urls []).2.count u = if u ∈ urls then 1 else 0) ∧
    (∀ (u : String) (c : List (String × Option String)) (v : Option String),
      c.lookup u = some v →
      get_web_thumnail dataPath http u c = (.ok v, cacheTouch u c, [])) := by
  constructor
  · intro u
    have hfil : urls.toFinset.filter
          (fun x => List.lookup x ([] : List (String × Option String)) = none)
        = urls.toFinset :=
      Finset.filter_true_of_mem (fun x _ => rfl)
    have hb : ([] : List (String × Option String)).length
        + (urls.toFinset.filter
            (fun x => List.lookup x ([] : List (String × Option String)) = none)).card ≤ 128 := by
      rw [hfil]
      simpa using hcard
    have h := webThumbRuns_count_aux dataPath http hdl urls [] (by simp) hb u
    rw [h]
    by_cases hu : u ∈ urls <;> simp [hu]
  · intro u c v hcv
    unfold get_web_thumnail
    rw [hcv]

/-- C8 witness: the amended theorem applied with the always-PNG HTTP client
to the sequence `["u", "u"]` — one download for `"u"`, none for `"x"` — and
to a direct cache hit. -/
theorem web_thumbnail_lru_spec_witness :
    ((webThumbRuns "data" pngHttp ["u", "u"] []).2.count "u" = 1 ∧
     (webThumbRuns "data" pngHttp ["u", "u"] []).2.count "x" = 0) ∧
    get_web_thumnail "data" pngHttp "u" [("u", some "p")]
      = (.ok (some "p"), cacheTouch "u" [("u", some "p")], []) := by
  have hdl : ∀ x, ∃ v, download_file pngHttp x (pluginCacheDir "data") = Except.ok v :=
    fun x => ⟨some (pluginCacheDir "data" ++ "/"
      ++ splitextStem (get_file_name_from_url x) ++ "." ++ "png"), rfl⟩
  have h := web_thumbnail_lru_spec "data" pngHttp hdl ["u", "u"] (by decide)
  refine ⟨⟨?_, ?_⟩, ?_⟩
  · rw [h.1 "u"]
    decide
  · rw [h.1 "x"]
    decide
  · exact h.2 "u" [("u", some "p")] (some "p") (by decide)

/-! ## Refresh-first and compression of the public surface (C9) -/

theorem update_players_cache_irrelevant (w : World) (s : CState) (c : List Player)
    (hbus : w.busOk = true) :
    update_players w { s with mpris_players := c } = update_players w s := by
  unfold update_players
  rw [hbus]
  simp

theorem get_matching_players_cache_irrelevant (f : Option String) (w : World) (s : CState)
    (c : List Player) (hbus : w.busOk = true) :
    get_matching_players f w { s with mpris_players := c } = get_matching_players f w s := by
  unfold get_matching_players
  rw [update_players_cache_irrelevant w s c hbus]

/-- A controller whose cached registry holds two endpoints with the same
identity, while the bus currently carries no endpoint at all. -/
def staleState : CState :=
  { initState with mpris_players := [endpointA, { endpointA with bus_name := "A2" }] }

/-- A healthy bus with no endpoints. -/
def emptyBusWorld : World := { roundTripWorld with players := [] }

/-- C9 counterexample: `get_player_names` neither refreshes the registry nor
compresses its result.  On a stale cache of two endpoints named `"PlayerA"`
it returns the duplicated names from the cache, although refreshing against
the current bus would find no endpoint at all, and it returns the raw list
where the compression function would collapse it. -/
theorem get_player_names_counterexample :
    get_player_names false staleState = ["PlayerA", "PlayerA"] ∧
    (update_players emptyBusWorld staleState).mpris_players = [] ∧
    compress_list (get_player_names false staleState) = some ["PlayerA"] := by
  decide

/-- C9 (amended): every public operation except `get_player_names` refreshes
the Endpoint Registry before resolving targets — whenever the bus
re-enumeration succeeds, the whole output is independent of the registry
cache the call starts from — and the command and query operations return
their per-endpoint result lists through `compress_list`; `get_player_names`
instead reads the stale cache and returns the raw, uncompressed name list,
and `get_active_player_name` returns a single optional name, not a
compressed list. -/
theorem refresh_and_compress_spec (f : Option String) (w : World) (s : CState)
    (c : List Player) (hbus : w.busOk = true) :
    (pause f w { s with mpris_players := c } = pause f w s ∧
     play f w { s with mpris_players := c } = play f w s ∧
     toggle f w { s with mpris_players := c } = toggle f w s ∧
     stop f w { s with mpris_players := c } = stop f w s ∧
     next f w { s with mpris_players := c } = next f w s ∧
     previous f w { s with mpris_players := c } = previous f w s ∧
     status f w { s with mpris_players := c } = status f w s ∧
     title f w { s with mpris_players := c } = title f w s ∧
     artist f w { s with mpris_players := c } = artist f w s ∧
     thumbnail f w { s with mpris_players := c } = thumbnail f w s ∧
     get_active_player_name w { s with mpris_players := c } = get_active_player_name w s) ∧
    ((pause f w s).result = compress_list (pauseLoop (get_matching_players f w s).2).1 ∧
     (play f w s).result = compress_list
       (playLoop f (get_matching_players f w s).1.previously_playing
         (get_matching_players f w s).2).1 ∧
     toggle f w s = (if (get_matching_players f w s).2.any
         (fun p => p.playbackStatus == some "Playing") then pause f w s else play f w s) ∧
     (stop f w s).2 = compress_list ((get_matching_ifaces f w s).2.map Player.stopOk) ∧
     (next f w s).2 = compress_list ((get_matching_ifaces f w s).2.map Player.nextOk) ∧
     (previous f w s).2 = compress_list ((get_matching_ifaces f w s).2.map Player.previousOk) ∧
     (status f w s).2 = compress_list
       ((get_matching_ifaces f w s).2.map (fun p => p.playbackStatus)) ∧
     (title f w s).2 = compress_list
       ((get_matching_ifaces f w s).2.map (fun p => p.metadata.bind (fun m => m.title))) ∧
     (artist f w s).2 = compress_list ((get_matching_ifaces f w s).2.map
       (fun p => p.metadata.bind (fun m => m.artist.bind List.head?))) ∧
     (thumbnail f w s).2.1 = (thumbnailLoop w.dataPath w.http (get_matching_ifaces f w s).2
       (get_matching_ifaces f w s).1.thumbCache).1.map compress_list) ∧
    (get_player_names false { s with mpris_players := c } = namesLoop false [] c) := by
  have hgmp := get_matching_players_cache_irrelevant f w s c hbus
  have hupd := update_players_cache_irrelevant w s c hbus
  refine ⟨⟨?_, ?_, ?_, ?_, ?_, ?_, ?_, ?_, ?_, ?_, ?_⟩,
    ⟨rfl, rfl, rfl, rfl, rfl, rfl, rfl, rfl, rfl, rfl⟩, rfl⟩
  · unfold pause
    rw [hgmp]
  · unfold play
    rw [hgmp]
  · unfold toggle pause play
    rw [hgmp]
  · unfold stop get_matching_ifaces
    rw [hgmp]
  · unfold next get_matching_ifaces
    rw [hgmp]
  · unfold previous get_matching_ifaces
    rw [hgmp]
  · unfold status get_matching_ifaces
    rw [hgmp]
  · unfold title get_matching_ifaces
    rw [hgmp]
  · unfold artist get_matching_ifaces
    rw [hgmp]
  · unfold thumbnail get_matching_ifaces
    rw [hgmp]
  · unfold get_active_player_name
    rw [hupd]

/-- C9 witness: the amended theorem applied on the healthy three-endpoint
bus: seeding the registry cache with `[endpointB]` changes nothing for
`pause`, while `get_player_names` reads exactly that stale cache. -/
theorem refresh_and_compress_spec_witness :
    pause none roundTripWorld { initState with mpris_players := [endpointB] }
      = pause none roundTripWorld initState ∧
    get_player_names false { initState with mpris_players := [endpointB] }
      = namesLoop false [] [endpointB] := by
  have h := refresh_and_compress_spec none roundTripWorld initState [endpointB] rfl
  exact ⟨h.1.1, h.2.2⟩

end MediaCtl
